import Mathlib

/-!
Verification development for the nanobot-go dispatcher core.

Each Go component relevant to the checked claims is shallowly embedded as
executable Lean definitions: machine strings become `String` or `List Char`
(Go `len` counts bytes; the texts involved are ASCII so character counts
coincide), Go slices become lists, fallible functions return `Except`,
and the stateful agent loop becomes explicit state passing.  Definitions
mirror the control flow of the Go source; file-system and network effects
are abstracted into explicit inputs.
-/

set_option maxHeartbeats 1000000

namespace Session

/-- One turn of a session, mirroring `session.Message` (role, content,
timestamp); the timestamp is modelled as a natural number. -/
structure Message where
  role : String
  content : String
  timestamp : Nat
deriving DecidableEq, Repr

/-- Embedding of `(*Session).AddMessage`: append the new turn, then keep
only the most recent 50 turns. -/
def addMessage (msgs : List Message) (role content : String) (now : Nat) : List Message :=
  let appended := msgs ++ [⟨role, content, now⟩]
  if 50 < appended.length then appended.drop (appended.length - 50) else appended

/-- The last `n` elements of a list, used to state the tail-window. -/
def lastN (n : Nat) (l : List α) : List α := l.drop (l.length - n)

/-- Build the turn a single append produces from its (role, content, time)
arguments. -/
def mkMessage (a : String × String × Nat) : Message := ⟨a.1, a.2.1, a.2.2⟩

/-- Run a sequence of `AddMessage` calls against a fresh (empty) session. -/
def applyAppends (appends : List (String × String × Nat)) : List Message :=
  appends.foldl (fun s a => addMessage s a.1 a.2.1 a.2.2) []

theorem length_lastN (n : Nat) (l : List α) : (lastN n l).length = min l.length n := by
  simp [lastN]
  omega

theorem addMessage_eq_lastN (msgs : List Message) (r c : String) (t : Nat) :
    addMessage msgs r c t = lastN 50 (msgs ++ [⟨r, c, t⟩]) := by
  unfold addMessage lastN
  dsimp only
  split
  · rfl
  · next h =>
    have : (msgs ++ [(⟨r, c, t⟩ : Message)]).length - 50 = 0 := by omega
    rw [this, List.drop_zero]

theorem lastN_append_lastN (n : Nat) (xs ys : List α) :
    lastN n (lastN n xs ++ ys) = lastN n (xs ++ ys) := by
  unfold lastN
  rw [List.drop_append_eq_append_drop, List.drop_append_eq_append_drop, List.drop_drop]
  have h1 : xs.length - n + ((List.drop (xs.length - n) xs ++ ys).length - n)
      = (xs ++ ys).length - n := by
    simp
    omega
  have h2 : (List.drop (xs.length - n) xs ++ ys).length - n - (List.drop (xs.length - n) xs).length
      = (xs ++ ys).length - n - xs.length := by
    simp
    omega
  rw [h1, h2]

theorem foldl_addMessage_eq_lastN (appends : List (String × String × Nat)) :
    ∀ xs : List Message,
      appends.foldl (fun s a => addMessage s a.1 a.2.1 a.2.2) (lastN 50 xs)
        = lastN 50 (xs ++ appends.map mkMessage) := by
  induction appends with
  | nil => intro xs; simp [List.foldl]
  | cons a as ih =>
    intro xs
    have step : addMessage (lastN 50 xs) a.1 a.2.1 a.2.2 = lastN 50 (xs ++ [mkMessage a]) := by
      rw [addMessage_eq_lastN, lastN_append_lastN]
      rfl
    calc (a :: as).foldl (fun s a => addMessage s a.1 a.2.1 a.2.2) (lastN 50 xs)
        = as.foldl (fun s a => addMessage s a.1 a.2.1 a.2.2) (lastN 50 (xs ++ [mkMessage a])) := by
          simp [List.foldl, step]
      _ = lastN 50 ((xs ++ [mkMessage a]) ++ as.map mkMessage) := ih (xs ++ [mkMessage a])
      _ = lastN 50 (xs ++ (a :: as).map mkMessage) := by simp

theorem applyAppends_eq_lastN (appends : List (String × String × Nat)) :
    applyAppends appends = lastN 50 (appends.map mkMessage) := by
  have h0 : (lastN 50 ([] : List Message)) = [] := rfl
  have := foldl_addMessage_eq_lastN appends []
  rw [h0] at this
  simpa [applyAppends] using this

end Session

/-- C2: after `n` appends to a fresh session the stored turn count equals
`min n 50`, and the stored list is exactly the most recent 50 appended
turns, in order (the oldest are evicted on overflow). -/
theorem c2_session_tail_window (appends : List (String × String × Nat)) :
    (Session.applyAppends appends).length = min appends.length 50 ∧
    Session.applyAppends appends
      = (appends.map Session.mkMessage).drop (appends.length - 50) := by
  rw [Session.applyAppends_eq_lastN]
  refine ⟨?_, ?_⟩
  · rw [Session.length_lastN]
    simp
  · simp [Session.lastN]

namespace Providers

/-- One tool-call delta entry of a streamed chunk, mirroring
`chatToolCallDelta` (the `type` field is never read by the
reconstruction and is omitted).  Absent JSON fields decode to `""`. -/
structure ToolCallDeltaChunk where
  index : Nat
  id : String
  name : String
  arguments : String
deriving DecidableEq, Repr

/-- One decoded item of the SSE stream: a data chunk (its single choice's
delta content and tool-call deltas) or the terminating `[DONE]` line. -/
inductive StreamItem where
  | chunk (content : String) (toolCalls : List ToolCallDeltaChunk)
  | done
deriving DecidableEq, Repr

/-- The calls `ChatStream` makes on its `StreamHandler`, in order. -/
inductive StreamEvent where
  | onContent (token : String)
  | onToolCallStart (id name : String)
  | onToolCallDelta (id fragment : String)
  | onToolCallEnd (id : String)
  | onComplete
deriving DecidableEq, Repr

/-- Mirror of `toolCallBuilder`. -/
structure ToolCallBuilder where
  id : String := ""
  name : String := ""
  arguments : String := ""
  started : Bool := false
deriving DecidableEq, Repr

/-- The `buildersByIndex` map, as an association list keyed by the
stream-local integer index (insertion order). -/
abbrev BuilderState := List (Nat × ToolCallBuilder)

def getBuilder : BuilderState → Nat → Option ToolCallBuilder
  | [], _ => none
  | (j, b) :: rest, i => if j = i then some b else getBuilder rest i

def setBuilder : BuilderState → Nat → ToolCallBuilder → BuilderState
  | [], i, b => [(i, b)]
  | (j, b0) :: rest, i, b => if j = i then (j, b) :: rest else (j, b0) :: setBuilder rest i b

/-- Embedding of the per-delta body of the `for _, tc := range
delta.ToolCalls` loop in `ChatStream`: update the builder for
`tc.index`, emit `OnToolCallStart` when id and name first become known,
and forward argument fragments as `OnToolCallDelta` once the id is
known. -/
def applyToolCallDelta (st : BuilderState) (tc : ToolCallDeltaChunk) :
    BuilderState × List StreamEvent :=
  let b0 := (getBuilder st tc.index).getD {}
  let b1 := if tc.id ≠ "" then { b0 with id := tc.id } else b0
  let b2 := if tc.name ≠ "" then { b1 with name := tc.name } else b1
  let b3 := if b2.started = false ∧ b2.id ≠ "" ∧ b2.name ≠ "" then
      { b2 with started := true } else b2
  let startEvents := if b2.started = false ∧ b2.id ≠ "" ∧ b2.name ≠ "" then
      [StreamEvent.onToolCallStart b2.id b2.name] else []
  let b4 := if tc.arguments ≠ "" then
      { b3 with arguments := b3.arguments ++ tc.arguments } else b3
  let deltaEvents := if tc.arguments ≠ "" ∧ b3.id ≠ "" then
      [StreamEvent.onToolCallDelta b3.id tc.arguments] else []
  (setBuilder st tc.index b4, startEvents ++ deltaEvents)

def applyDeltas (st : BuilderState) : List ToolCallDeltaChunk → BuilderState × List StreamEvent
  | [] => (st, [])
  | tc :: rest =>
    let r1 := applyToolCallDelta st tc
    let r2 := applyDeltas r1.1 rest
    (r2.1, r1.2 ++ r2.2)

/-- Embedding of the per-chunk body of the scan loop: a non-empty
`delta.content` is forwarded via `OnContent`, then the tool-call deltas
are applied in order. -/
def applyChunk (st : BuilderState) (content : String) (tcs : List ToolCallDeltaChunk) :
    BuilderState × List StreamEvent :=
  let contentEvents := if content ≠ "" then [StreamEvent.onContent content] else []
  let r := applyDeltas st tcs
  (r.1, contentEvents ++ r.2)

/-- Consume stream items until the list ends or `[DONE]` is reached,
mirroring the `for scanner.Scan()` loop with its `break` on `[DONE]`. -/
def consumeStream (st : BuilderState) : List StreamItem → BuilderState × List StreamEvent
  | [] => (st, [])
  | .done :: _ => (st, [])
  | .chunk content tcs :: rest =>
    let r1 := applyChunk st content tcs
    let r2 := consumeStream r1.1 rest
    (r2.1, r1.2 ++ r2.2)

/-- Embedding of the end-of-stream flush: `OnToolCallEnd` for every
builder whose arguments and id are non-empty. -/
def flushEnds (st : BuilderState) : List StreamEvent :=
  st.filterMap (fun p =>
    if p.2.arguments ≠ "" ∧ p.2.id ≠ "" then some (StreamEvent.onToolCallEnd p.2.id) else none)

/-- The full handler-event trace `ChatStream` produces for a decoded
stream (error-free case): chunk consumption, the end flush, then
`OnComplete`. -/
def chatStreamEvents (items : List StreamItem) : List StreamEvent :=
  let r := consumeStream [] items
  r.2 ++ flushEnds r.1 ++ [StreamEvent.onComplete]

theorem start_mem_applyToolCallDelta {st : BuilderState} {tc : ToolCallDeltaChunk}
    {id name : String}
    (h : StreamEvent.onToolCallStart id name ∈ (applyToolCallDelta st tc).2) :
    id ≠ "" ∧ name ≠ "" := by
  simp only [applyToolCallDelta] at h
  split_ifs at h <;> simp_all

theorem end_not_mem_applyToolCallDelta {st : BuilderState} {tc : ToolCallDeltaChunk}
    {id : String} :
    StreamEvent.onToolCallEnd id ∉ (applyToolCallDelta st tc).2 := by
  simp only [applyToolCallDelta]
  split_ifs <;> simp_all

theorem start_mem_applyDeltas {id name : String} :
    ∀ (tcs : List ToolCallDeltaChunk) (st : BuilderState),
      StreamEvent.onToolCallStart id name ∈ (applyDeltas st tcs).2 → id ≠ "" ∧ name ≠ "" := by
  intro tcs
  induction tcs with
  | nil => intro st h; simp [applyDeltas] at h
  | cons tc rest ih =>
    intro st h
    simp only [applyDeltas, List.mem_append] at h
    rcases h with h | h
    · exact start_mem_applyToolCallDelta h
    · exact ih _ h

theorem end_not_mem_applyDeltas {id : String} :
    ∀ (tcs : List ToolCallDeltaChunk) (st : BuilderState),
      StreamEvent.onToolCallEnd id ∉ (applyDeltas st tcs).2 := by
  intro tcs
  induction tcs with
  | nil => intro st h; simp [applyDeltas] at h
  | cons tc rest ih =>
    intro st h
    simp only [applyDeltas, List.mem_append] at h
    rcases h with h | h
    · exact end_not_mem_applyToolCallDelta h
    · exact ih _ h

theorem start_mem_consumeStream {id name : String} :
    ∀ (items : List StreamItem) (st : BuilderState),
      StreamEvent.onToolCallStart id name ∈ (consumeStream st items).2 → id ≠ "" ∧ name ≠ "" := by
  intro items
  induction items with
  | nil => intro st h; simp [consumeStream] at h
  | cons item rest ih =>
    intro st h
    cases item with
    | done => simp [consumeStream] at h
    | chunk content tcs =>
      simp only [consumeStream, applyChunk, List.mem_append] at h
      rcases h with (h | h) | h
      · split_ifs at h <;> simp_all
      · exact start_mem_applyDeltas _ _ h
      · exact ih _ h

theorem end_not_mem_consumeStream {id : String} :
    ∀ (items : List StreamItem) (st : BuilderState),
      StreamEvent.onToolCallEnd id ∉ (consumeStream st items).2 := by
  intro items
  induction items with
  | nil => intro st h; simp [consumeStream] at h
  | cons item rest ih =>
    intro st h
    cases item with
    | done => simp [consumeStream] at h
    | chunk content tcs =>
      simp only [consumeStream, applyChunk, List.mem_append] at h
      rcases h with (h | h) | h
      · split_ifs at h <;> simp_all
      · exact end_not_mem_applyDeltas _ _ h
      · exact ih _ h

theorem end_mem_flushEnds {st : BuilderState} {id : String}
    (h : StreamEvent.onToolCallEnd id ∈ flushEnds st) :
    ∃ idx b, (idx, b) ∈ st ∧ b.id = id ∧ b.arguments ≠ "" := by
  simp only [flushEnds, List.mem_filterMap] at h
  obtain ⟨p, hp, hf⟩ := h
  by_cases hc : p.2.arguments ≠ "" ∧ p.2.id ≠ ""
  · rw [if_pos hc] at hf
    refine ⟨p.1, p.2, hp, ?_, hc.1⟩
    injection hf with h1
    injection h1
  · simp [hc] at hf

end Providers

namespace Providers

theorem start_not_mem_flushEnds {st : BuilderState} {id name : String} :
    StreamEvent.onToolCallStart id name ∉ flushEnds st := by
  simp only [flushEnds, List.mem_filterMap]
  rintro ⟨p, hp, hf⟩
  split_ifs at hf
  simp_all

end Providers

/-- C1: on the stream delta id "A" and name "f" at index 0, then two
argument fragments at index 0, then `[DONE]`, the client emits exactly one
`OnToolCallStart("A","f")`, two `OnToolCallDelta("A",...)` whose fragments
concatenate to the full JSON text, one `OnToolCallEnd("A")` and the final
`OnComplete`; moreover, on every stream, `OnToolCallStart` is emitted only
with both id and name known (non-empty), and `OnToolCallEnd` is emitted
only at stream end and only for builders with non-empty arguments. -/
theorem c1_stream_tool_call_reconstruction :
    Providers.chatStreamEvents
        [Providers.StreamItem.chunk "" [⟨0, "A", "f", ""⟩],
         Providers.StreamItem.chunk "" [⟨0, "", "", "\x7b\"x\":"⟩],
         Providers.StreamItem.chunk "" [⟨0, "", "", "1\x7d"⟩],
         Providers.StreamItem.done]
      = [Providers.StreamEvent.onToolCallStart "A" "f",
         Providers.StreamEvent.onToolCallDelta "A" "\x7b\"x\":",
         Providers.StreamEvent.onToolCallDelta "A" "1\x7d",
         Providers.StreamEvent.onToolCallEnd "A",
         Providers.StreamEvent.onComplete] ∧
    ("\x7b\"x\":" ++ "1\x7d" : String) = "\x7b\"x\":1\x7d" ∧
    (∀ (items : List Providers.StreamItem) (id name : String),
      Providers.StreamEvent.onToolCallStart id name ∈ Providers.chatStreamEvents items →
        id ≠ "" ∧ name ≠ "") ∧
    (∀ (items : List Providers.StreamItem) (id : String),
      Providers.StreamEvent.onToolCallEnd id ∈ Providers.chatStreamEvents items →
        ∃ idx b, (idx, b) ∈ (Providers.consumeStream [] items).1 ∧
          b.id = id ∧ b.arguments ≠ "") := by
  refine ⟨by decide, rfl, ?_, ?_⟩
  · intro items id name h
    simp only [Providers.chatStreamEvents, List.mem_append, List.mem_singleton] at h
    rcases h with (h | h) | h
    · exact Providers.start_mem_consumeStream items [] h
    · exact absurd h Providers.start_not_mem_flushEnds
    · simp at h
  · intro items id h
    simp only [Providers.chatStreamEvents, List.mem_append, List.mem_singleton] at h
    rcases h with (h | h) | h
    · exact absurd h (Providers.end_not_mem_consumeStream items [])
    · exact Providers.end_mem_flushEnds h
    · simp at h

/-- Witness for C1: the general clauses applied to the concrete stream of
the scenario. -/
theorem c1_stream_tool_call_reconstruction_witness :
    (("A" : String) ≠ "" ∧ ("f" : String) ≠ "") ∧
    (∃ idx b, (idx, b) ∈ (Providers.consumeStream []
        [Providers.StreamItem.chunk "" [⟨0, "A", "f", ""⟩],
         Providers.StreamItem.chunk "" [⟨0, "", "", "\x7b\"x\":"⟩],
         Providers.StreamItem.chunk "" [⟨0, "", "", "1\x7d"⟩],
         Providers.StreamItem.done]).1 ∧ b.id = "A" ∧ b.arguments ≠ "") := by
  refine ⟨?_, ?_⟩
  · exact c1_stream_tool_call_reconstruction.2.2.1
      [Providers.StreamItem.chunk "" [⟨0, "A", "f", ""⟩],
       Providers.StreamItem.chunk "" [⟨0, "", "", "\x7b\"x\":"⟩],
       Providers.StreamItem.chunk "" [⟨0, "", "", "1\x7d"⟩],
       Providers.StreamItem.done] "A" "f" (by decide)
  · exact c1_stream_tool_call_reconstruction.2.2.2
      [Providers.StreamItem.chunk "" [⟨0, "A", "f", ""⟩],
       Providers.StreamItem.chunk "" [⟨0, "", "", "\x7b\"x\":"⟩],
       Providers.StreamItem.chunk "" [⟨0, "", "", "1\x7d"⟩],
       Providers.StreamItem.done] "A" (by decide)

namespace Agent

/-- Mirror of `providers.ToolCallFunction`. -/
structure ToolCallFunction where
  name : String
  arguments : String
deriving DecidableEq, Repr

/-- Mirror of `providers.ToolCall`. -/
structure PToolCall where
  id : String
  type : String
  function : ToolCallFunction
deriving DecidableEq, Repr

/-- Mirror of `providers.Message` as used by the agent loop. -/
structure PMessage where
  role : String
  content : String
  toolCallID : String := ""
  toolCalls : List PToolCall := []
deriving DecidableEq, Repr

/-- What one streamed LLM call delivers to the loop, after the
`streamHandler` has collected the fragments: either a transport/decode
error, or the collected content together with the completed tool calls. -/
inductive LLMStep where
  | fail (err : String)
  | reply (content : String) (toolCalls : List PToolCall)
deriving Repr

/-- Embedding of `ContextBuilder.BuildMessages`: system prompt, history,
then the current user message, `[Media: kind]`-prefixed when a media
attachment is present.  The system-prompt assembly from workspace files
is abstracted into the `systemPrompt` argument. -/
def buildMessages (systemPrompt : String) (history : List PMessage)
    (currentMessage : String) (media : Option String) : List PMessage :=
  let content := match media with
    | some kind => "[Media: " ++ kind ++ "] " ++ currentMessage
    | none => currentMessage
  ⟨"system", systemPrompt, "", []⟩ :: (history ++ [⟨"user", content, "", []⟩])

/-- Embedding of `ContextBuilder.AddAssistantMessage`. -/
def addAssistantMessage (messages : List PMessage) (content : String)
    (toolCalls : List PToolCall) : List PMessage :=
  messages ++ [⟨"assistant", content, "", toolCalls⟩]

/-- Embedding of `ContextBuilder.AddToolResult`. -/
def addToolResult (messages : List PMessage) (toolCallID result : String) : List PMessage :=
  messages ++ [⟨"tool", result, toolCallID, []⟩]

/-- One tool round of `ProcessMessage`: append the assistant message
carrying the tool calls, then one tool-result message per call.
Argument JSON parsing and registry dispatch are abstracted into
`execTool`, which yields the result text fed back to the model
(including the `Error: ...` conversion). -/
def appendToolRound (messages : List PMessage) (content : String)
    (toolCalls : List PToolCall) (execTool : PToolCall → String) : List PMessage :=
  toolCalls.foldl (fun ms tc => addToolResult ms tc.id (execTool tc))
    (addAssistantMessage messages content toolCalls)

/-- How the `for i := 0; i < a.MaxIterations; i++` loop of
`ProcessMessage` ends. -/
inductive LoopExit where
  | finished (finalContent : String) (iterations : Nat)
  | capHit (iterations : Nat)
  | failed (err : String) (iterations : Nat)
deriving DecidableEq, Repr

/-- Embedding of the reasoning loop of `ProcessMessage`: each iteration
streams one LLM step; a stream error aborts; tool calls are executed and
fed back; a reply without tool calls ends the loop with its content;
`finalContent` stays empty when the iteration cap is reached. -/
def runLoop (script : Nat → LLMStep) (execTool : PToolCall → String) :
    Nat → Nat → List PMessage → LoopExit
  | 0, i, _ => .capHit i
  | fuel + 1, i, messages =>
    match script i with
    | .fail e => .failed ("LLM stream error: " ++ e) (i + 1)
    | .reply content toolCalls =>
      match toolCalls with
      | [] => .finished content (i + 1)
      | tc :: rest =>
        runLoop script execTool fuel (i + 1)
          (appendToolRound messages content (tc :: rest) execTool)

/-- The fixed fallback reply substituted for an empty final content. -/
def placeholderReply : String :=
  "I" ++ String.singleton (Char.ofNat 39)
    ++ "ve completed processing but have no response to give."

/-- Result of one `ProcessMessage` call: outbound reply or error, the
session state afterwards, how many session-file writes happened, and how
many LLM stream calls were made. -/
structure AgentOutcome where
  result : Except String String
  sessionAfter : List Session.Message
  fileWrites : Nat
  llmIterations : Nat
deriving Repr

/-- Embedding of `ProcessMessage`: build the message list from the
session history and the inbound content, run the reasoning loop,
substitute the placeholder for an empty reply, and only on success
append the user and assistant turns and write the session file once. -/
def processMessage (maxIterations : Nat) (script : Nat → LLMStep)
    (execTool : PToolCall → String) (systemPrompt : String)
    (sessionIn : List Session.Message) (userContent : String)
    (media : Option String) (now : Nat) : AgentOutcome :=
  let history := sessionIn.map (fun m => (⟨m.role, m.content, "", []⟩ : PMessage))
  let messages := buildMessages systemPrompt history userContent media
  match runLoop script execTool maxIterations 0 messages with
  | .failed e iters => ⟨Except.error e, sessionIn, 0, iters⟩
  | .finished content iters =>
    let finalContent := if content = "" then placeholderReply else content
    ⟨Except.ok finalContent,
     Session.addMessage (Session.addMessage sessionIn "user" userContent now)
       "assistant" finalContent now,
     1, iters⟩
  | .capHit iters =>
    ⟨Except.ok placeholderReply,
     Session.addMessage (Session.addMessage sessionIn "user" userContent now)
       "assistant" placeholderReply now,
     1, iters⟩

/-- Embedding of the `maxIterations` coercion in `NewAgentLoop`: a
non-positive cap is replaced by the default 20. -/
def newAgentLoopMaxIterations (m : Int) : Int := if m ≤ 0 then 20 else m

/-- Whether a collected LLM step carries at least one tool call. -/
def stepHasToolCalls : LLMStep → Bool
  | .reply _ (_ :: _) => true
  | _ => false

theorem runLoop_capHit (script : Nat → LLMStep) (execTool : PToolCall → String) :
    ∀ (fuel i : Nat) (messages : List PMessage),
      (∀ j, i ≤ j → j < i + fuel → stepHasToolCalls (script j) = true) →
      runLoop script execTool fuel i messages = .capHit (i + fuel) := by
  intro fuel
  induction fuel with
  | zero => intro i messages _; simp [runLoop]
  | succ fuel ih =>
    intro i messages h
    have hi : stepHasToolCalls (script i) = true := h i (le_refl i) (by omega)
    cases hs : script i with
    | fail e => rw [hs] at hi; simp [stepHasToolCalls] at hi
    | reply content toolCalls =>
      cases toolCalls with
      | nil => rw [hs] at hi; simp [stepHasToolCalls] at hi
      | cons tc rest =>
        have : runLoop script execTool (fuel + 1) i messages
            = runLoop script execTool fuel (i + 1)
                (appendToolRound messages content (tc :: rest) execTool) := by
          simp [runLoop, hs]
        rw [this, ih (i + 1) _ (fun j h1 h2 => h j (by omega) (by omega))]
        congr 1
        omega

end Agent

/-- C3 counterexample: the loop constructed with an iteration cap of 0
has its cap coerced to 20 by `NewAgentLoop`, and processing a message
with that effective cap against a model that answers directly performs
one LLM iteration and emits the model content, not the placeholder. -/
theorem c3_counterexample :
    Agent.newAgentLoopMaxIterations 0 = 20 ∧
    (Agent.processMessage (Agent.newAgentLoopMaxIterations 0).toNat
        (fun _ => Agent.LLMStep.reply "hi" []) (fun _ => "") "sys" [] "hello" none 0).llmIterations
      = 1 ∧
    (Agent.processMessage (Agent.newAgentLoopMaxIterations 0).toNat
        (fun _ => Agent.LLMStep.reply "hi" []) (fun _ => "") "sys" [] "hello" none 0).result
      = Except.ok "hi" ∧
    (Except.ok "hi" : Except String String) ≠ Except.ok Agent.placeholderReply := by
  refine ⟨rfl, rfl, rfl, fun h => absurd (Except.ok.inj h) (by decide)⟩

/-- C3 (amended): `NewAgentLoop` coerces a cap of 0 to the default 20;
when `ProcessMessage` runs with an effective iteration cap of 0 (the
`MaxIterations` field set to 0 after construction), it performs no LLM
iterations, emits the non-empty placeholder reply, and persists exactly
the user turn and the placeholder assistant turn with one file write. -/
theorem c3_zero_cap_degrades_to_placeholder (script : Nat → Agent.LLMStep)
    (execTool : Agent.PToolCall → String) (systemPrompt : String)
    (sessionIn : List Session.Message) (userContent : String)
    (media : Option String) (now : Nat) :
    Agent.newAgentLoopMaxIterations 0 = 20 ∧
    (Agent.processMessage 0 script execTool systemPrompt sessionIn userContent media now).llmIterations = 0 ∧
    (Agent.processMessage 0 script execTool systemPrompt sessionIn userContent media now).result
      = Except.ok Agent.placeholderReply ∧
    (Agent.processMessage 0 script execTool systemPrompt sessionIn userContent media now).fileWrites = 1 ∧
    (Agent.processMessage 0 script execTool systemPrompt sessionIn userContent media now).sessionAfter
      = Session.addMessage (Session.addMessage sessionIn "user" userContent now)
          "assistant" Agent.placeholderReply now := by
  exact ⟨rfl, rfl, rfl, rfl, rfl⟩

/-- C4 counterexample: with an iteration cap of 1 and a model that
streams content "partial" together with a tool call on every iteration,
the cap-hit outcome emits the placeholder, not the collected content. -/
theorem c4_counterexample :
    (Agent.processMessage 1
        (fun _ => Agent.LLMStep.reply "partial"
          [⟨"call_1", "function", ⟨"f", "\x7b\x7d"⟩⟩])
        (fun _ => "res") "sys" [] "go" none 0).result
      = Except.ok Agent.placeholderReply ∧
    (Agent.processMessage 1
        (fun _ => Agent.LLMStep.reply "partial"
          [⟨"call_1", "function", ⟨"f", "\x7b\x7d"⟩⟩])
        (fun _ => "res") "sys" [] "go" none 0).result
      ≠ Except.ok "partial" ∧
    (Agent.processMessage 1
        (fun _ => Agent.LLMStep.reply "partial"
          [⟨"call_1", "function", ⟨"f", "\x7b\x7d"⟩⟩])
        (fun _ => "res") "sys" [] "go" none 0).llmIterations = 1 := by
  refine ⟨rfl, fun h => absurd (Except.ok.inj h) (by decide), rfl⟩

/-- C4 (amended): when processing reaches the iteration cap with the
model issuing tool calls on every iteration, the collected streamed
content is discarded: `finalContent` stays empty and the terminal
outcome emits the placeholder reply, after exactly `cap` iterations. -/
theorem c4_cap_hit_emits_placeholder (maxIterations : Nat)
    (script : Nat → Agent.LLMStep) (execTool : Agent.PToolCall → String)
    (systemPrompt : String) (sessionIn : List Session.Message)
    (userContent : String) (media : Option String) (now : Nat)
    (h : ∀ i, i < maxIterations → Agent.stepHasToolCalls (script i) = true) :
    (Agent.processMessage maxIterations script execTool systemPrompt sessionIn
        userContent media now).result = Except.ok Agent.placeholderReply ∧
    (Agent.processMessage maxIterations script execTool systemPrompt sessionIn
        userContent media now).llmIterations = maxIterations := by
  have hcap := Agent.runLoop_capHit script execTool maxIterations 0
    (Agent.buildMessages systemPrompt
      (sessionIn.map (fun m => (⟨m.role, m.content, "", []⟩ : Agent.PMessage)))
      userContent media)
    (fun j _ h2 => h j (by omega))
  simp only [Agent.processMessage, hcap]
  simp

/-- Witness for C4: the amended statement at cap 1 with a concrete
always-tool-calling script. -/
theorem c4_cap_hit_emits_placeholder_witness :
    (Agent.processMessage 1
        (fun _ => Agent.LLMStep.reply "x" [⟨"c1", "function", ⟨"f", "\x7b\x7d"⟩⟩])
        (fun _ => "ok") "s" [] "u" none 0).result = Except.ok Agent.placeholderReply ∧
    (Agent.processMessage 1
        (fun _ => Agent.LLMStep.reply "x" [⟨"c1", "function", ⟨"f", "\x7b\x7d"⟩⟩])
        (fun _ => "ok") "s" [] "u" none 0).llmIterations = 1 :=
  c4_cap_hit_emits_placeholder 1
    (fun _ => Agent.LLMStep.reply "x" [⟨"c1", "function", ⟨"f", "\x7b\x7d"⟩⟩])
    (fun _ => "ok") "s" [] "u" none 0 (fun _ _ => rfl)

/-- C10: processing is atomic with respect to the session on LLM
failure: an error outcome leaves the session untouched and writes no
file, while a success outcome appends exactly the user turn and the
assistant turn carrying the final reply, with exactly one file write
after the reasoning loop ends. -/
theorem c10_session_atomic_on_llm_failure (maxIterations : Nat)
    (script : Nat → Agent.LLMStep) (execTool : Agent.PToolCall → String)
    (systemPrompt : String) (sessionIn : List Session.Message)
    (userContent : String) (media : Option String) (now : Nat) :
    (∀ e, (Agent.processMessage maxIterations script execTool systemPrompt sessionIn
        userContent media now).result = Except.error e →
      (Agent.processMessage maxIterations script execTool systemPrompt sessionIn
        userContent media now).sessionAfter = sessionIn ∧
      (Agent.processMessage maxIterations script execTool systemPrompt sessionIn
        userContent media now).fileWrites = 0) ∧
    (∀ r, (Agent.processMessage maxIterations script execTool systemPrompt sessionIn
        userContent media now).result = Except.ok r →
      (Agent.processMessage maxIterations script execTool systemPrompt sessionIn
        userContent media now).fileWrites = 1 ∧
      (Agent.processMessage maxIterations script execTool systemPrompt sessionIn
        userContent media now).sessionAfter
        = Session.addMessage (Session.addMessage sessionIn "user" userContent now)
            "assistant" r now) := by
  cases hrun : Agent.runLoop script execTool maxIterations 0
      (Agent.buildMessages systemPrompt
        (sessionIn.map (fun m => (⟨m.role, m.content, "", []⟩ : Agent.PMessage)))
        userContent media) with
  | finished content iters =>
    constructor
    · intro e he
      simp only [Agent.processMessage, hrun] at he
      exact absurd he (by simp)
    · intro r hr
      simp only [Agent.processMessage, hrun] at hr ⊢
      have : (if content = "" then Agent.placeholderReply else content) = r := by
        exact Except.ok.inj hr
      simp [this]
  | capHit iters =>
    constructor
    · intro e he
      simp only [Agent.processMessage, hrun] at he
      exact absurd he (by simp)
    · intro r hr
      simp only [Agent.processMessage, hrun] at hr ⊢
      have : Agent.placeholderReply = r := Except.ok.inj hr
      simp [this]
  | failed e iters =>
    constructor
    · intro e0 he
      simp [Agent.processMessage, hrun]
    · intro r hr
      simp only [Agent.processMessage, hrun] at hr
      exact absurd hr (by simp)

/-- Witness for C10: the atomicity clauses at a failing and a succeeding
concrete script. -/
theorem c10_session_atomic_on_llm_failure_witness :
    ((Agent.processMessage 1 (fun _ => Agent.LLMStep.fail "boom") (fun _ => "")
        "s" [] "u" none 0).sessionAfter = [] ∧
     (Agent.processMessage 1 (fun _ => Agent.LLMStep.fail "boom") (fun _ => "")
        "s" [] "u" none 0).fileWrites = 0) ∧
    ((Agent.processMessage 1 (fun _ => Agent.LLMStep.reply "hi" []) (fun _ => "")
        "s" [] "u" none 0).fileWrites = 1 ∧
     (Agent.processMessage 1 (fun _ => Agent.LLMStep.reply "hi" []) (fun _ => "")
        "s" [] "u" none 0).sessionAfter
       = Session.addMessage (Session.addMessage [] "user" "u" 0) "assistant" "hi" 0) := by
  constructor
  · exact (c10_session_atomic_on_llm_failure 1 (fun _ => Agent.LLMStep.fail "boom")
      (fun _ => "") "s" [] "u" none 0).1 "LLM stream error: boom" rfl
  · exact (c10_session_atomic_on_llm_failure 1 (fun _ => Agent.LLMStep.reply "hi" [])
      (fun _ => "") "s" [] "u" none 0).2 "hi" rfl

namespace Tools

/-- The characters of a Go string (ASCII throughout these claims, so Go
byte length equals the character count). -/
def strChars (s : String) : List Char := s.data

/-- Embedding of `isPathAllowed` for already-absolute cleaned paths
(`filepath.Abs` is the identity on them): with an empty allowed
directory everything passes, otherwise the check is a plain string
prefix test, `strings.HasPrefix(absPath, absAllowed)`. -/
def isPathAllowed (allowedDir absPath : String) : Bool :=
  if allowedDir = "" then true
  else allowedDir.data.isPrefixOf absPath.data

/-- Specification-side notion of lying beneath a root directory: the
path is the root itself or extends it past a path separator. -/
def pathBeneath (root p : String) : Bool :=
  (p == root) || (root ++ "/").data.isPrefixOf p.data

/-- Embedding of the line split `strings.Split(content, "\n")` in
`ReadFileTool.Execute`. -/
def splitLines : List Char → List (List Char)
  | [] => [[]]
  | c :: cs =>
    match splitLines cs with
    | [] => [[c]]
    | l :: ls => if c = '\n' then [] :: l :: ls else (c :: l) :: ls

/-- Embedding of the final join `strings.Join(lines, "\n")`. -/
def joinLines : List (List Char) → List Char
  | [] => []
  | [l] => l
  | l :: l2 :: ls => l ++ '\n' :: joinLines (l2 :: ls)

/-- Embedding of the `limit > 0 && limit < len(lines)` clamp. -/
def applyLimit (limit : Nat) (lines : List (List Char)) : List (List Char) :=
  if 0 < limit ∧ limit < lines.length then lines.take limit else lines

/-- Embedding of the offset/limit logic of `ReadFileTool.Execute` on the
successfully read file content (absent offset and limit arrive as 0). -/
def readFileContent (content : List Char) (offset limit : Nat) :
    Except String (List Char) :=
  let lines := splitLines content
  if 0 < offset then
    if lines.length ≤ offset then Except.error "offset exceeds file length"
    else Except.ok (joinLines (applyLimit limit (lines.drop offset)))
  else Except.ok (joinLines (applyLimit limit lines))

theorem splitLines_ne_nil : ∀ cs : List Char, splitLines cs ≠ [] := by
  intro cs
  cases cs with
  | nil => simp [splitLines]
  | cons c cs =>
    simp only [splitLines]
    cases splitLines cs with
    | nil => simp
    | cons l ls =>
      dsimp only
      split_ifs <;> simp

theorem joinLines_cons_head (c : Char) (l : List Char) (ls : List (List Char)) :
    joinLines ((c :: l) :: ls) = c :: joinLines (l :: ls) := by
  cases ls with
  | nil => simp [joinLines]
  | cons l2 ls => simp [joinLines]

theorem joinLines_splitLines : ∀ cs : List Char, joinLines (splitLines cs) = cs := by
  intro cs
  induction cs with
  | nil => rfl
  | cons c cs ih =>
    simp only [splitLines]
    cases h : splitLines cs with
    | nil => exact absurd h (splitLines_ne_nil cs)
    | cons l ls =>
      rw [h] at ih
      dsimp only
      by_cases hc : c = '\n'
      · subst hc
        rw [if_pos rfl]
        have : joinLines ([] :: l :: ls) = [] ++ '\n' :: joinLines (l :: ls) := rfl
        rw [this, ih]
        rfl
      · rw [if_neg hc, joinLines_cons_head, ih]

theorem splitLines_no_newline : ∀ (cs : List Char) (l : List Char),
    l ∈ splitLines cs → '\n' ∉ l := by
  intro cs
  induction cs with
  | nil => intro l hl; simp [splitLines] at hl; simp [hl]
  | cons c cs ih =>
    intro l hl
    simp only [splitLines] at hl
    cases h : splitLines cs with
    | nil => exact absurd h (splitLines_ne_nil cs)
    | cons l0 ls =>
      rw [h] at hl
      dsimp only at hl
      by_cases hc : c = '\n'
      · rw [if_pos hc] at hl
        rcases List.mem_cons.mp hl with hl | hl
        · simp [hl]
        · exact ih l (h ▸ hl)
      · rw [if_neg hc] at hl
        rcases List.mem_cons.mp hl with hl | hl
        · subst hl
          intro hmem
          rcases List.mem_cons.mp hmem with he | he
          · exact hc he.symm
          · exact ih l0 (h ▸ List.mem_cons_self l0 ls) he
        · exact ih l (h ▸ List.mem_cons_of_mem l0 hl)

theorem splitLines_single (l : List Char) (hl : '\n' ∉ l) : splitLines l = [l] := by
  induction l with
  | nil => rfl
  | cons c cs ih =>
    have hc : c ≠ '\n' := fun h => hl (h ▸ List.mem_cons_self c cs)
    have hcs : '\n' ∉ cs := fun h => hl (List.mem_cons_of_mem c h)
    simp only [splitLines, ih hcs]
    rw [if_neg (fun h => hc h)]

theorem splitLines_append_newline (l rest : List Char) (hl : '\n' ∉ l) :
    splitLines (l ++ '\n' :: rest) = l :: splitLines rest := by
  induction l with
  | nil =>
    simp only [List.nil_append, splitLines]
    cases h : splitLines rest with
    | nil => exact absurd h (splitLines_ne_nil rest)
    | cons l0 ls => simp
  | cons c cs ih =>
    have hc : c ≠ '\n' := fun h => hl (h ▸ List.mem_cons_self c cs)
    have hcs : '\n' ∉ cs := fun h => hl (List.mem_cons_of_mem c h)
    show splitLines (c :: (cs ++ '\n' :: rest)) = (c :: cs) :: splitLines rest
    simp only [splitLines]
    rw [ih hcs]
    dsimp only
    rw [if_neg (fun h => hc h)]

theorem splitLines_joinLines : ∀ ls : List (List Char), ls ≠ [] →
    (∀ l ∈ ls, '\n' ∉ l) → splitLines (joinLines ls) = ls := by
  intro ls
  induction ls with
  | nil => intro h; exact absurd rfl h
  | cons l ls ih =>
    intro _ hn
    cases ls with
    | nil =>
      have : joinLines [l] = l := rfl
      rw [this, splitLines_single l (hn l (List.mem_cons_self l []))]
    | cons l2 ls2 =>
      have : joinLines (l :: l2 :: ls2) = l ++ '\n' :: joinLines (l2 :: ls2) := rfl
      rw [this, splitLines_append_newline l _ (hn l (List.mem_cons_self l _)),
        ih (by simp) (fun x hx => hn x (List.mem_cons_of_mem l hx))]

theorem readFile_full (content : List Char) : readFileContent content 0 0 = Except.ok content := by
  simp [readFileContent, applyLimit, joinLines_splitLines]

end Tools

namespace Tools

/-- The overflow marker `"\n... (output truncated)"` appended by
`ExecTool.Execute` when output exceeds the limit. -/
def truncMarker : List Char := strChars "\n... (output truncated)"

/-- The 10 KiB output cap of `ExecTool.Execute`. -/
def maxOutputSize : Nat := 10 * 1024

/-- Embedding of the output truncation in `ExecTool.Execute`. -/
def truncateOutput (out : List Char) : List Char :=
  if maxOutputSize < out.length then out.take maxOutputSize ++ truncMarker else out

/-- How the executed command ended: clean exit, non-nil error, or
deadline exceeded (the latter two carry the formatted error/timeout
text). -/
inductive ExecRunOutcome where
  | success
  | failed (errText : List Char)
  | timedOut (timeoutText : List Char)

/-- Embedding of the result-text construction of `ExecTool.Execute`:
truncate the combined output, then on failure or timeout prepend the
notice (both are returned as tool results, not errors). -/
def execResultText (o : ExecRunOutcome) (output : List Char) : List Char :=
  let outputStr := truncateOutput output
  match o with
  | .success => outputStr
  | .failed e => strChars "Command failed: " ++ e ++ strChars "\nOutput:\n" ++ outputStr
  | .timedOut t =>
    strChars "Command timed out after " ++ t ++ strChars "\nPartial output:\n" ++ outputStr

theorem length_truncateOutput (out : List Char) :
    (truncateOutput out).length ≤ maxOutputSize + truncMarker.length := by
  unfold truncateOutput
  split
  · simp
  · next h =>
    have : out.length ≤ maxOutputSize := by omega
    omega

end Tools

/-- C5 (code bug): `isPathAllowed` accepts any absolute path that merely
has the allowed root as a string prefix, so with root `/ws` the path
`/wsx/secret.txt` — which does not lie beneath `/ws` — passes the check,
while the specified behavior is to reject every path outside the root
(a path beneath the root, or the root itself, as `pathBeneath` states).
Paths genuinely inside and genuinely outside behave as specified. -/
theorem c5_sandbox_prefix_check_admits_sibling :
    Tools.isPathAllowed "/ws" "/wsx/secret.txt" = true ∧
    Tools.pathBeneath "/ws" "/wsx/secret.txt" = false ∧
    Tools.isPathAllowed "/ws" "/ws/ok.txt" = true ∧
    Tools.pathBeneath "/ws" "/ws/ok.txt" = true ∧
    Tools.isPathAllowed "/ws" "/etc/passwd" = false := by
  decide

/-- C6 counterexample: the offset is 0-indexed, not 1-indexed: on the
file `line1\nline2\nline3`, offset 2 returns `line3` (the content
starting at line 3), not the content starting at line 2. -/
theorem c6_counterexample :
    Tools.readFileContent (Tools.strChars "line1\nline2\nline3") 2 0
      = Except.ok (Tools.strChars "line3") ∧
    Tools.strChars "line3" ≠ Tools.strChars "line2\nline3" := by
  exact ⟨rfl, by decide⟩

/-- C6 (amended): `read_file` honors a 0-indexed line offset and a line
limit: with neither offset nor limit the full content is returned; a
positive offset not below the line count fails; a positive offset below
the line count returns exactly the lines after the first `offset` ones;
a positive limit below the line count clamps the output to the first
`limit` lines. -/
theorem c6_read_file_offset_limit :
    (∀ content : List Char, Tools.readFileContent content 0 0 = Except.ok content) ∧
    (∀ (content : List Char) (offset limit : Nat), 0 < offset →
      (Tools.splitLines content).length ≤ offset →
      Tools.readFileContent content offset limit
        = Except.error "offset exceeds file length") ∧
    (∀ (content : List Char) (offset : Nat), 0 < offset →
      offset < (Tools.splitLines content).length →
      ∃ out, Tools.readFileContent content offset 0 = Except.ok out ∧
        Tools.splitLines out = (Tools.splitLines content).drop offset) ∧
    (∀ (content : List Char) (limit : Nat), 0 < limit →
      limit < (Tools.splitLines content).length →
      ∃ out, Tools.readFileContent content 0 limit = Except.ok out ∧
        Tools.splitLines out = (Tools.splitLines content).take limit) := by
  refine ⟨Tools.readFile_full, ?_, ?_, ?_⟩
  · intro content offset limit hpos hge
    simp [Tools.readFileContent, if_pos hpos, if_pos hge]
  · intro content offset hpos hlt
    refine ⟨Tools.joinLines ((Tools.splitLines content).drop offset), ?_, ?_⟩
    · simp [Tools.readFileContent, if_pos hpos, Nat.not_le.mpr hlt, Tools.applyLimit]
    · refine Tools.splitLines_joinLines _ ?_ ?_
      · intro hnil
        have := congrArg List.length hnil
        simp at this
        omega
      · intro l hl
        exact Tools.splitLines_no_newline content l (List.mem_of_mem_drop hl)
  · intro content limit hpos hlt
    refine ⟨Tools.joinLines ((Tools.splitLines content).take limit), ?_, ?_⟩
    · simp [Tools.readFileContent, Tools.applyLimit, if_pos (And.intro hpos hlt)]
    · refine Tools.splitLines_joinLines _ ?_ ?_
      · intro hnil
        have hlen := congrArg List.length hnil
        simp [List.length_take] at hlen
        rcases hlen with h | h
        · omega
        · exact Tools.splitLines_ne_nil content h
      · intro l hl
        exact Tools.splitLines_no_newline content l (List.mem_of_mem_take hl)

/-- Witness for C6: the amended clauses at the concrete file
`a\nb\nc`. -/
theorem c6_read_file_offset_limit_witness :
    Tools.readFileContent (Tools.strChars "a\nb\nc") 3 0
      = Except.error "offset exceeds file length" ∧
    (∃ out, Tools.readFileContent (Tools.strChars "a\nb\nc") 1 0 = Except.ok out ∧
      Tools.splitLines out = (Tools.splitLines (Tools.strChars "a\nb\nc")).drop 1) ∧
    (∃ out, Tools.readFileContent (Tools.strChars "a\nb\nc") 0 2 = Except.ok out ∧
      Tools.splitLines out = (Tools.splitLines (Tools.strChars "a\nb\nc")).take 2) := by
  refine ⟨?_, ?_, ?_⟩
  · exact c6_read_file_offset_limit.2.1 (Tools.strChars "a\nb\nc") 3 0
      (by decide) (by decide)
  · exact c6_read_file_offset_limit.2.2.1 (Tools.strChars "a\nb\nc") 1
      (by decide) (by decide)
  · exact c6_read_file_offset_limit.2.2.2 (Tools.strChars "a\nb\nc") 2
      (by decide) (by decide)

/-- C8 counterexample: successful tool results are neither always
non-empty nor bounded by 10 KiB plus the marker: `read_file` on an empty
file succeeds with the empty text, and on a 10300-byte single-line file
it succeeds with all 10300 bytes, exceeding the bound. -/
theorem c8_counterexample :
    (Tools.readFileContent [] 0 0 = Except.ok [] ∧ ([] : List Char).length = 0) ∧
    (Tools.readFileContent (List.replicate 10300 'a') 0 0
        = Except.ok (List.replicate 10300 'a') ∧
      Tools.maxOutputSize + Tools.truncMarker.length
        < (List.replicate 10300 'a').length) := by
  refine ⟨⟨rfl, rfl⟩, ⟨Tools.readFile_full (List.replicate 10300 'a'), ?_⟩⟩
  rw [List.length_replicate]
  decide

/-- C8 (amended): the 10 KiB bound is a property of the `exec` tool: the
text `ExecTool.Execute` returns for a cleanly exiting command is at most
10 KiB plus the overflow marker (other tools, such as `read_file`, are
neither non-empty nor length-bounded). -/
theorem c8_exec_output_bound (output : List Char) :
    (Tools.execResultText Tools.ExecRunOutcome.success output).length
      ≤ Tools.maxOutputSize + Tools.truncMarker.length := by
  have h : Tools.execResultText Tools.ExecRunOutcome.success output
      = Tools.truncateOutput output := rfl
  rw [h]
  exact Tools.length_truncateOutput output

namespace Tools

/-- A single-quote character, kept out of source literals. -/
def sq : String := String.singleton (Char.ofNat 39)

/-- A decoded JSON argument value as Go's `map[string]interface{}`
holds it.  Numbers are modelled as integers: every numeric value in the
repository's schemas and validated calls is an integral `float64`, for
which Go's `isInteger` holds.  Array- and object-typed values are not
modelled because no schema constructed in the repository has an array-
or object-typed property, so the recursive `array`/`object` branches of
`validateValue` are dead code for every registered tool. -/
inductive JValue where
  | s (v : String)
  | n (v : Int)
  | b (v : Bool)
deriving DecidableEq, Repr

/-- One property schema as the repository's tools build them: a scalar
type with optional bounds and enum (`minLength`, `maxLength`,
`minimum`, `maximum`, `enum`). -/
structure PropSchema where
  ty : String
  minLength : Option Int := none
  maxLength : Option Int := none
  minimum : Option Int := none
  maximum : Option Int := none
  enum : Option (List String) := none
deriving DecidableEq, Repr

/-- A tool's top-level parameter schema: `{type, properties, required}`. -/
structure ToolSchema where
  ty : String
  properties : List (String × PropSchema)
  required : List String
deriving DecidableEq, Repr

/-- First binding for a key in an association list (Go map lookup). -/
def lookupField : List (String × α) → String → Option α
  | [], _ => none
  | (k, v) :: rest, key => if k = key then some v else lookupField rest key

/-- The `minLength`/`maxLength` checks of the `string` branch of
`validateValue`. -/
def checkString (str : String) (p : PropSchema) (path : String) : Option String :=
  match p.minLength with
  | some m =>
    if (str.length : Int) < m then
      some (path ++ " must be at least " ++ toString m ++ " chars")
    else
      match p.maxLength with
      | some M =>
        if M < (str.length : Int) then
          some (path ++ " must be at most " ++ toString M ++ " chars")
        else none
      | none => none
  | none =>
    match p.maxLength with
    | some M =>
      if M < (str.length : Int) then
        some (path ++ " must be at most " ++ toString M ++ " chars")
      else none
    | none => none

/-- The `minimum`/`maximum` checks of the numeric branches of
`validateValue`. -/
def checkNumBounds (num : Int) (p : PropSchema) (path : String) : Option String :=
  match p.minimum with
  | some m =>
    if num < m then some (path ++ " must be >= " ++ toString m)
    else
      match p.maximum with
      | some M => if M < num then some (path ++ " must be <= " ++ toString M) else none
      | none => none
  | none =>
    match p.maximum with
    | some M => if M < num then some (path ++ " must be <= " ++ toString M) else none
    | none => none

/-- The trailing `enum` check of `validateValue` (the repository's only
enum is a list of strings). -/
def checkEnum (v : JValue) (p : PropSchema) (path : String) : Option String :=
  match p.enum with
  | none => none
  | some vs =>
    let found := match v with
      | .s str => vs.contains str
      | _ => false
    if found then none
    else some (path ++ " must be one of [" ++ " ".intercalate vs ++ "]")

/-- Embedding of `validateValue`: switch on the declared type, check the
value's dynamic type and its bounds, then the enum; `none` means no
error.  A type string with no branch (including absent) validates. -/
def validateValue (v : JValue) (p : PropSchema) (path : String) : Option String :=
  let typeErr : Option String :=
    match p.ty with
    | "string" =>
      match v with
      | .s str => checkString str p path
      | _ => some (path ++ " should be string")
    | "integer" =>
      match v with
      | .n num => checkNumBounds num p path
      | _ => some (path ++ " should be integer")
    | "number" =>
      match v with
      | .n num => checkNumBounds num p path
      | _ => some (path ++ " should be number")
    | "boolean" =>
      match v with
      | .b _ => none
      | _ => some (path ++ " should be boolean")
    | _ => none
  match typeErr with
  | some e => some e
  | none => checkEnum v p path

/-- The required-field scan of `ValidateParams`: first required name
missing from the params map. -/
def firstMissingRequired (required : List String) (params : List (String × JValue)) :
    Option String :=
  match required with
  | [] => none
  | r :: rest =>
    if (lookupField params r).isNone then some r else firstMissingRequired rest params

/-- The per-parameter validation loop of `ValidateParams`: unknown keys
are ignored, known keys are validated against their property schema. -/
def validateEach (properties : List (String × PropSchema)) :
    List (String × JValue) → Option String
  | [] => none
  | (key, value) :: rest =>
    match lookupField properties key with
    | none => validateEach properties rest
    | some p =>
      match validateValue value p key with
      | some e => some e
      | none => validateEach properties rest

/-- Embedding of `ValidateParams`: a nil schema validates; the schema
type must be "object"; required fields must be present; each present
parameter with a known property schema must validate. -/
def validateParams (schema : Option ToolSchema) (params : List (String × JValue)) :
    Option String :=
  match schema with
  | none => none
  | some sch =>
    if sch.ty ≠ "object" then
      some ("schema type must be " ++ sq ++ "object" ++ sq ++ ", got " ++ sq ++ sch.ty ++ sq)
    else
      match firstMissingRequired sch.required params with
      | some r => some ("missing required parameter: " ++ r)
      | none => validateEach sch.properties params

/-- A registered tool: its parameter schema and its executor. -/
structure RegTool where
  schema : Option ToolSchema
  run : List (String × JValue) → Except String String

/-- Embedding of `Registry.Execute`: look up by name (absent fails with
an error); validate the arguments (a diagnostic is returned as the tool
result, not an error); only then invoke the executor. -/
def registryExecute (reg : List (String × RegTool)) (name : String)
    (params : List (String × JValue)) : Except String String :=
  match lookupField reg name with
  | none => Except.error ("tool not found: " ++ name)
  | some tool =>
    match validateParams tool.schema params with
    | some err => Except.ok ("Invalid parameters: " ++ err)
    | none => tool.run params

end Tools

/-- C7: registry dispatch: an unregistered name fails with the
unknown-tool error; a schema mismatch succeeds with a textual diagnostic
as the tool result (the executor is not consulted: the result is the
fixed diagnostic whatever the executor is); only when validation passes
is the tool's executor invoked, and its answer is the result. -/
theorem c7_registry_execute_dispatch (reg : List (String × Tools.RegTool))
    (name : String) (params : List (String × Tools.JValue)) :
    (Tools.lookupField reg name = none →
      Tools.registryExecute reg name params
        = Except.error ("tool not found: " ++ name)) ∧
    (∀ tool, Tools.lookupField reg name = some tool →
      (∀ err, Tools.validateParams tool.schema params = some err →
        Tools.registryExecute reg name params
          = Except.ok ("Invalid parameters: " ++ err)) ∧
      (Tools.validateParams tool.schema params = none →
        Tools.registryExecute reg name params = tool.run params)) := by
  refine ⟨?_, ?_⟩
  · intro h
    simp [Tools.registryExecute, h]
  · intro tool h
    refine ⟨?_, ?_⟩
    · intro err herr
      simp [Tools.registryExecute, h, herr]
    · intro hok
      simp [Tools.registryExecute, h, hok]

/-- Witness for C7: dispatch on a one-tool registry holding the
`read_file` schema: unknown name, missing required `path`, and a valid
call. -/
theorem c7_registry_execute_dispatch_witness :
    Tools.registryExecute
        [("read_file", ⟨some ⟨"object",
            [("path", ⟨"string", none, none, none, none, none⟩),
             ("limit", ⟨"integer", none, none, some 1, some 1000, none⟩),
             ("offset", ⟨"integer", none, none, some 0, none, none⟩)],
            ["path"]⟩, fun _ => Except.ok "CONTENT"⟩)]
        "nope" [] = Except.error "tool not found: nope" ∧
    Tools.registryExecute
        [("read_file", ⟨some ⟨"object",
            [("path", ⟨"string", none, none, none, none, none⟩),
             ("limit", ⟨"integer", none, none, some 1, some 1000, none⟩),
             ("offset", ⟨"integer", none, none, some 0, none, none⟩)],
            ["path"]⟩, fun _ => Except.ok "CONTENT"⟩)]
        "read_file" [("limit", Tools.JValue.n 5)]
      = Except.ok "Invalid parameters: missing required parameter: path" ∧
    Tools.registryExecute
        [("read_file", ⟨some ⟨"object",
            [("path", ⟨"string", none, none, none, none, none⟩),
             ("limit", ⟨"integer", none, none, some 1, some 1000, none⟩),
             ("offset", ⟨"integer", none, none, some 0, none, none⟩)],
            ["path"]⟩, fun _ => Except.ok "CONTENT"⟩)]
        "read_file" [("path", Tools.JValue.s "/etc/hosts")] = Except.ok "CONTENT" := by
  refine ⟨?_, ?_, ?_⟩
  · exact (c7_registry_execute_dispatch _ "nope" []).1 rfl
  · have h := (c7_registry_execute_dispatch
        [("read_file", (⟨some ⟨"object",
            [("path", ⟨"string", none, none, none, none, none⟩),
             ("limit", ⟨"integer", none, none, some 1, some 1000, none⟩),
             ("offset", ⟨"integer", none, none, some 0, none, none⟩)],
            ["path"]⟩, fun _ => Except.ok "CONTENT"⟩ : Tools.RegTool))]
        "read_file" [("limit", Tools.JValue.n 5)]).2
    exact (h _ rfl).1 "missing required parameter: path" rfl
  · have h := (c7_registry_execute_dispatch
        [("read_file", (⟨some ⟨"object",
            [("path", ⟨"string", none, none, none, none, none⟩),
             ("limit", ⟨"integer", none, none, some 1, some 1000, none⟩),
             ("offset", ⟨"integer", none, none, some 0, none, none⟩)],
            ["path"]⟩, fun _ => Except.ok "CONTENT"⟩ : Tools.RegTool))]
        "read_file" [("path", Tools.JValue.s "/etc/hosts")]).2
    exact (h _ rfl).2 rfl

namespace Config

/-- One provider's credentials (only the API key is read by
`GetAPIKey`). -/
structure ProviderConfig where
  apiKey : String
deriving DecidableEq, Repr

/-- Mirror of `ProvidersConfig`: the eight providers. -/
structure ProvidersConfig where
  openrouter : ProviderConfig
  deepseek : ProviderConfig
  anthropic : ProviderConfig
  openai : ProviderConfig
  gemini : ProviderConfig
  moonshot : ProviderConfig
  vllm : ProviderConfig
  groq : ProviderConfig
deriving DecidableEq, Repr

/-- The slice of `Config` that `GetAPIKey` reads: the default model and
the provider credentials. -/
structure ConfigData where
  defaultModel : String
  providers : ProvidersConfig
deriving DecidableEq, Repr

/-- ASCII lowering, mirroring `strings.ToLower` on the ASCII model
identifiers involved. -/
def toLowerStr (s : String) : String := String.mk (s.data.map Char.toLower)

/-- Substring test on character lists, mirroring `strings.Contains`. -/
def containsSeq : List Char → List Char → Bool
  | [], needle => needle.isEmpty
  | c :: rest, needle => needle.isPrefixOf (c :: rest) || containsSeq rest needle

/-- `strings.Contains(s, sub)`. -/
def strContainsSub (s sub : String) : Bool := containsSeq s.data sub.data

/-- The ordered keyword table of `GetAPIKey` (keyword, that provider's
key), in source order. -/
def keywordProviders (p : ProvidersConfig) : List (String × String) :=
  [("openrouter", p.openrouter.apiKey),
   ("deepseek", p.deepseek.apiKey),
   ("anthropic", p.anthropic.apiKey),
   ("claude", p.anthropic.apiKey),
   ("openai", p.openai.apiKey),
   ("gpt", p.openai.apiKey),
   ("gemini", p.gemini.apiKey),
   ("groq", p.groq.apiKey),
   ("moonshot", p.moonshot.apiKey),
   ("kimi", p.moonshot.apiKey),
   ("vllm", p.vllm.apiKey)]

/-- The keyword loop: first entry whose keyword occurs in the model name
and whose key is non-empty. -/
def findKeywordKey (model : String) : List (String × String) → Option String
  | [] => none
  | (kw, key) :: rest =>
    if strContainsSub model kw = true ∧ key ≠ "" then some key
    else findKeywordKey model rest

/-- The fallback order of `GetAPIKey`, in source order. -/
def fallbackKeyList (p : ProvidersConfig) : List String :=
  [p.openrouter.apiKey, p.deepseek.apiKey, p.anthropic.apiKey, p.openai.apiKey,
   p.gemini.apiKey, p.moonshot.apiKey, p.vllm.apiKey, p.groq.apiKey]

/-- The fallback loop: first non-empty key, else the empty string. -/
def firstNonEmptyKey : List String → String
  | [] => ""
  | k :: rest => if k ≠ "" then k else firstNonEmptyKey rest

/-- Embedding of `Config.GetAPIKey`: default the model name, lower it,
try the keyword table, then fall back to the first configured key. -/
def getAPIKey (c : ConfigData) (model : String) : String :=
  let model := if model = "" then c.defaultModel else model
  let model := toLowerStr model
  match findKeywordKey model (keywordProviders c.providers) with
  | some key => key
  | none => firstNonEmptyKey (fallbackKeyList c.providers)

/-- The effective lowercased model identifier `GetAPIKey` routes on. -/
def effModel (c : ConfigData) (model : String) : String :=
  toLowerStr (if model = "" then c.defaultModel else model)

/-- All provider keywords of the routing table. -/
def keywordList : List String :=
  ["openrouter", "deepseek", "anthropic", "claude", "openai", "gpt",
   "gemini", "groq", "moonshot", "kimi", "vllm"]

/-- Specification-side reading of the fallback sentence: the key of the
first provider with a non-empty key in the fixed order `{openrouter,
deepseek, anthropic, openai, gemini, moonshot, vllm, groq}`, and the
empty string when all keys are empty. -/
def fallbackKeySpec (p : ProvidersConfig) : String :=
  ((fallbackKeyList p).find? (fun k => !(k == ""))).getD ""

theorem findKeywordKey_none (model : String) :
    ∀ pairs : List (String × String),
      (∀ q ∈ pairs, strContainsSub model q.1 = false) →
      findKeywordKey model pairs = none := by
  intro pairs
  induction pairs with
  | nil => intro _; rfl
  | cons q rest ih =>
    intro h
    have hq := h q (List.mem_cons_self q rest)
    cases q with
    | mk kw key =>
      simp only [findKeywordKey]
      rw [if_neg]
      · exact ih (fun r hr => h r (List.mem_cons_of_mem _ hr))
      · intro hcontra
        rw [hq] at hcontra
        exact Bool.false_ne_true hcontra.1

theorem firstNonEmptyKey_eq_find (l : List String) :
    firstNonEmptyKey l = (l.find? (fun k => !(k == ""))).getD "" := by
  induction l with
  | nil => rfl
  | cons k rest ih =>
    by_cases hk : k = ""
    · subst hk
      simp [firstNonEmptyKey, List.find?, ih]
    · have hb : (k == "") = false := by simp [hk]
      simp [firstNonEmptyKey, List.find?, hk, hb]

end Config

/-- C9: for every model identifier whose effective lowercased form
contains none of the routing keywords, `GetAPIKey` returns the key of
the first provider with a non-empty key in the fixed fallback order
openrouter, deepseek, anthropic, openai, gemini, moonshot, vllm, groq,
and the empty string when every key is empty. -/
theorem c9_api_key_fallback_order (c : Config.ConfigData) (model : String)
    (h : ∀ kw ∈ Config.keywordList,
      Config.strContainsSub (Config.effModel c model) kw = false) :
    Config.getAPIKey c model = Config.fallbackKeySpec c.providers := by
  have hnone : Config.findKeywordKey (Config.effModel c model)
      (Config.keywordProviders c.providers) = none := by
    apply Config.findKeywordKey_none
    intro q hq
    simp only [Config.keywordProviders, List.mem_cons, List.mem_singleton] at hq
    rcases hq with rfl | rfl | rfl | rfl | rfl | rfl | rfl | rfl | rfl | rfl | rfl | hq
    · exact h "openrouter" (by simp [Config.keywordList])
    · exact h "deepseek" (by simp [Config.keywordList])
    · exact h "anthropic" (by simp [Config.keywordList])
    · exact h "claude" (by simp [Config.keywordList])
    · exact h "openai" (by simp [Config.keywordList])
    · exact h "gpt" (by simp [Config.keywordList])
    · exact h "gemini" (by simp [Config.keywordList])
    · exact h "groq" (by simp [Config.keywordList])
    · exact h "moonshot" (by simp [Config.keywordList])
    · exact h "kimi" (by simp [Config.keywordList])
    · exact h "vllm" (by simp [Config.keywordList])
    · simp at hq
  show (match Config.findKeywordKey (Config.effModel c model)
      (Config.keywordProviders c.providers) with
    | some key => key
    | none => Config.firstNonEmptyKey (Config.fallbackKeyList c.providers))
    = Config.fallbackKeySpec c.providers
  rw [hnone, Config.firstNonEmptyKey_eq_find]
  rfl

/-- Witness for C9: a model name matching no keyword falls back to the
first non-empty key (anthropic here, with openrouter and deepseek
unset). -/
theorem c9_api_key_fallback_order_witness :
    Config.getAPIKey
      ⟨"llama-3-70b-instruct",
       ⟨⟨""⟩, ⟨""⟩, ⟨"antkey"⟩, ⟨"oakey"⟩, ⟨"gmkey"⟩, ⟨"mskey"⟩, ⟨"vlkey"⟩, ⟨"gqkey"⟩⟩⟩
      "" = "antkey" := by
  have := c9_api_key_fallback_order
    ⟨"llama-3-70b-instruct",
     ⟨⟨""⟩, ⟨""⟩, ⟨"antkey"⟩, ⟨"oakey"⟩, ⟨"gmkey"⟩, ⟨"mskey"⟩, ⟨"vlkey"⟩, ⟨"gqkey"⟩⟩⟩
    "" (by decide)
  rw [this]
  rfl
